import Mathlib

/-!
Verification of the WebGPU black-hole raytracer against its specification.

The Lean definitions below are shallow embeddings of the TypeScript/WGSL
sources: `Vector3D.ts`, `SchwarzschildBlackHoleEquation.ts`, `Utils.ts`,
and the WGSL compute kernel plus the `RayProcessor` frame driver embedded
in `RayProcessor.ts`.  Real-valued shader arithmetic is modelled over `ℝ`,
machine integers over `ℕ`, and the fallible `Vector3D.divide` over
`Except`.  Pseudo-random jitter produced by the shader's sine hash is
modelled as an explicit input parameter.
-/

set_option maxHeartbeats 1000000

noncomputable section

/-- Three-component real vector, the model of both `Vector3D` (CPU) and
`vec3<f32>` (WGSL). -/
structure Vec3 where
  x : ℝ
  y : ℝ
  z : ℝ

namespace Vec3

@[ext] theorem ext_xyz {a b : Vec3} (hx : a.x = b.x) (hy : a.y = b.y) (hz : a.z = b.z) :
    a = b := by
  cases a; cases b; simp_all

instance : Add Vec3 := ⟨fun a b => ⟨a.x + b.x, a.y + b.y, a.z + b.z⟩⟩

instance : Sub Vec3 := ⟨fun a b => ⟨a.x - b.x, a.y - b.y, a.z - b.z⟩⟩

instance : Neg Vec3 := ⟨fun a => ⟨-a.x, -a.y, -a.z⟩⟩

instance : SMul ℝ Vec3 := ⟨fun t a => ⟨t * a.x, t * a.y, t * a.z⟩⟩

@[simp] theorem add_x (a b : Vec3) : (a + b).x = a.x + b.x := rfl
@[simp] theorem add_y (a b : Vec3) : (a + b).y = a.y + b.y := rfl
@[simp] theorem add_z (a b : Vec3) : (a + b).z = a.z + b.z := rfl
@[simp] theorem sub_x (a b : Vec3) : (a - b).x = a.x - b.x := rfl
@[simp] theorem sub_y (a b : Vec3) : (a - b).y = a.y - b.y := rfl
@[simp] theorem sub_z (a b : Vec3) : (a - b).z = a.z - b.z := rfl
@[simp] theorem smul_x (t : ℝ) (a : Vec3) : (t • a).x = t * a.x := rfl
@[simp] theorem smul_y (t : ℝ) (a : Vec3) : (t • a).y = t * a.y := rfl
@[simp] theorem smul_z (t : ℝ) (a : Vec3) : (t • a).z = t * a.z := rfl
@[simp] theorem mk_x (a b c : ℝ) : (Vec3.mk a b c).x = a := rfl
@[simp] theorem mk_y (a b c : ℝ) : (Vec3.mk a b c).y = b := rfl
@[simp] theorem mk_z (a b c : ℝ) : (Vec3.mk a b c).z = c := rfl

end Vec3

/-- Squared norm, embedding `Vector3D.norm2` and WGSL `dot(p, p)`. -/
def normSq (v : Vec3) : ℝ := v.x * v.x + v.y * v.y + v.z * v.z

/-- Euclidean norm, embedding `Vector3D.norm` and WGSL `length`. -/
def vnorm (v : Vec3) : ℝ := Real.sqrt (normSq v)

/-- Cross product, embedding `Vector3D.cross` and the WGSL `cross3`. -/
def cross3 (a b : Vec3) : Vec3 :=
  ⟨a.y * b.z - a.z * b.y, a.z * b.x - a.x * b.z, a.x * b.y - a.y * b.x⟩

theorem normSq_nonneg (v : Vec3) : 0 ≤ normSq v := by
  have hx := mul_self_nonneg v.x
  have hy := mul_self_nonneg v.y
  have hz := mul_self_nonneg v.z
  unfold normSq; linarith

theorem normSq_smul (t : ℝ) (v : Vec3) : normSq (t • v) = t ^ 2 * normSq v := by
  simp only [normSq, Vec3.smul_x, Vec3.smul_y, Vec3.smul_z]; ring

namespace Vector3D

/-- Embedding of `Vector3D.divide`: the source throws
`new Error("Cannot divide by zero")` when the scalar is zero, otherwise
multiplies by the reciprocal. -/
def divide (v : Vec3) (scalar : ℝ) : Except String Vec3 :=
  if scalar = 0 then Except.error "Cannot divide by zero"
  else
    let invScalar := 1 / scalar
    Except.ok ⟨v.x * invScalar, v.y * invScalar, v.z * invScalar⟩

/-- Embedding of `Vector3D.normalize`: returns the zero vector when the
length is zero, otherwise divides by the length (the inner `divide` cannot
throw because the length was checked to be nonzero). -/
def normalize (v : Vec3) : Vec3 :=
  if vnorm v = 0 then ⟨0, 0, 0⟩
  else ⟨v.x * (1 / vnorm v), v.y * (1 / vnorm v), v.z * (1 / vnorm v)⟩

end Vector3D

/-- Claim C6 counterexample: dividing a vector by zero does not return a
zero vector; `Vector3D.divide` raises an error instead, refuting the claim
at the concrete input `(1,2,3) / 0`. -/
theorem c6_counterexample :
    Vector3D.divide ⟨1, 2, 3⟩ 0 ≠ Except.ok ⟨0, 0, 0⟩ ∧
    Vector3D.divide ⟨1, 2, 3⟩ 0 = Except.error "Cannot divide by zero" := by
  constructor
  · simp [Vector3D.divide]
  · simp [Vector3D.divide]

/-- Claim C6 (amended): normalizing a zero-length vector returns the zero
vector and never raises, but dividing by zero raises the error
"Cannot divide by zero" rather than returning a zero vector. -/
theorem c6_normalize_zero_divide_throws (v : Vec3) :
    (vnorm v = 0 → Vector3D.normalize v = ⟨0, 0, 0⟩) ∧
    Vector3D.divide v 0 = Except.error "Cannot divide by zero" := by
  constructor
  · intro h
    simp [Vector3D.normalize, h]
  · simp [Vector3D.divide]

/-- Claim C6 witness: the amended theorem applied at the zero vector, whose
norm is zero. -/
theorem c6_witness :
    vnorm ⟨0, 0, 0⟩ = 0 ∧ Vector3D.normalize ⟨0, 0, 0⟩ = ⟨0, 0, 0⟩ := by
  have h0 : vnorm ⟨0, 0, 0⟩ = 0 := by
    simp [vnorm, normSq]
  exact ⟨h0, (c6_normalize_zero_divide_throws ⟨0, 0, 0⟩).1 h0⟩

/-- State of the `RayProcessor` frame driver: the frame counter plus the
fields touched by the public mutators.  The scene and the GPU texture
handles are modelled as opaque identifiers. -/
structure RayProc where
  frameCount : ℕ
  maxIterations : ℝ
  jitterScale : ℝ
  sceneId : ℕ
  diskTextureId : ℕ
  skyTextureId : ℕ

namespace RayProc

/-- Embedding of `RayProcessor.reset`: sets the frame counter to zero. -/
def reset (s : RayProc) : RayProc := { s with frameCount := 0 }

/-- Embedding of `RayProcessor.setScene`: stores the scene, then calls
`reset`. -/
def setScene (sc : ℕ) (s : RayProc) : RayProc := reset { s with sceneId := sc }

/-- Embedding of `RayProcessor.setMaxIterations`: stores the iteration
limit and logs; the source does not call `reset`. -/
def setMaxIterations (iters : ℝ) (s : RayProc) : RayProc :=
  { s with maxIterations := iters }

/-- Embedding of `RayProcessor.setJitterScale`: stores the jitter scale
and logs; the source does not call `reset`. -/
def setJitterScale (scale : ℝ) (s : RayProc) : RayProc :=
  { s with jitterScale := scale }

/-- Embedding of the state effect of `RayProcessor.loadDiskTexture` after
the texture upload succeeds: install the new texture, then `reset`. -/
def loadDiskTexture (tex : ℕ) (s : RayProc) : RayProc :=
  reset { s with diskTextureId := tex }

/-- Embedding of the state effect of `RayProcessor.loadSkyTexture` after
the texture upload succeeds: install the new texture, then `reset`. -/
def loadSkyTexture (tex : ℕ) (s : RayProc) : RayProc :=
  reset { s with skyTextureId := tex }

/-- Embedding of the frame-counter effect of `RayProcessor.processFrame`:
increments the frame counter. -/
def processFrame (s : RayProc) : RayProc := { s with frameCount := s.frameCount + 1 }

end RayProc

/-- The proposition asserted by claim C1: every one of the five public
mutators leaves the frame counter at zero. -/
def mutatorsAllReset : Prop :=
  ∀ (s : RayProc) (sc : ℕ) (iters scale : ℝ) (t u : ℕ),
    (RayProc.setScene sc s).frameCount = 0 ∧
    (RayProc.setMaxIterations iters s).frameCount = 0 ∧
    (RayProc.setJitterScale scale s).frameCount = 0 ∧
    (RayProc.loadDiskTexture t s).frameCount = 0 ∧
    (RayProc.loadSkyTexture u s).frameCount = 0

/-- Claim C1 counterexample: `setMaxIterations` does not reset.  On a
state with frame counter 1 it leaves the counter at 1, refuting the claim
that all five mutators reset. -/
theorem c1_counterexample : ¬ mutatorsAllReset := by
  intro hall
  have h := (hall ⟨1, 0, 0, 0, 0, 0⟩ 0 5 0 0 0).2.1
  simp [RayProc.setMaxIterations] at h

/-- Claim C1 (amended): `setScene`, `loadDiskTexture` and `loadSkyTexture`
reset the frame counter to zero after taking effect, while
`setMaxIterations` and `setJitterScale` leave the frame counter
unchanged (they perform no reset). -/
theorem c1_mutator_reset_behaviour (s : RayProc) (sc : ℕ) (iters scale : ℝ) (t u : ℕ) :
    (RayProc.setScene sc s).frameCount = 0 ∧
    (RayProc.loadDiskTexture t s).frameCount = 0 ∧
    (RayProc.loadSkyTexture u s).frameCount = 0 ∧
    (RayProc.setMaxIterations iters s).frameCount = s.frameCount ∧
    (RayProc.setJitterScale scale s).frameCount = s.frameCount := by
  refine ⟨rfl, rfl, rfl, rfl, rfl⟩

/-- Observable steps performed by the texture-swap methods, in program
order. -/
inductive SwapEv where
  | createNewTexture
  | copyImageToTexture
  | destroyOldTexture
  | installNewTexture
  | rebuildBindGroup
  | resetFrameCount
deriving DecidableEq, BEq

/-- Program-order event list of `RayProcessor.loadDiskTexture`: create the
new texture, copy the mirrored-atlas image into it, destroy the old
texture, store the new texture, recreate the bind group, reset. -/
def loadDiskTextureEvents : List SwapEv :=
  [SwapEv.createNewTexture, SwapEv.copyImageToTexture, SwapEv.destroyOldTexture,
   SwapEv.installNewTexture, SwapEv.rebuildBindGroup, SwapEv.resetFrameCount]

/-- Program-order event list of `RayProcessor.loadSkyTexture`: identical
step order to the disk loader. -/
def loadSkyTextureEvents : List SwapEv :=
  [SwapEv.createNewTexture, SwapEv.copyImageToTexture, SwapEv.destroyOldTexture,
   SwapEv.installNewTexture, SwapEv.rebuildBindGroup, SwapEv.resetFrameCount]

/-- The proposition asserted by claim C5: in both texture loaders, the old
texture is destroyed only after the rebuilt bind group is installed. -/
def destroyAfterRebind : Prop :=
  List.indexOf SwapEv.rebuildBindGroup loadDiskTextureEvents <
    List.indexOf SwapEv.destroyOldTexture loadDiskTextureEvents ∧
  List.indexOf SwapEv.rebuildBindGroup loadSkyTextureEvents <
    List.indexOf SwapEv.destroyOldTexture loadSkyTextureEvents

/-- Claim C5 counterexample: in the source, `destroy()` on the old texture
is executed before the replacement bind group is created, in both
`loadDiskTexture` and `loadSkyTexture`. -/
theorem c5_counterexample : ¬ destroyAfterRebind := by
  intro h
  exact absurd h.1 (by decide)

/-- Claim C5 (amended): the old texture is destroyed after the new texture
is created and its image copied, but before the replacement bind group is
rebuilt, in both texture loaders. -/
theorem c5_destroy_before_rebind :
    (List.indexOf SwapEv.createNewTexture loadDiskTextureEvents <
       List.indexOf SwapEv.destroyOldTexture loadDiskTextureEvents ∧
     List.indexOf SwapEv.copyImageToTexture loadDiskTextureEvents <
       List.indexOf SwapEv.destroyOldTexture loadDiskTextureEvents ∧
     List.indexOf SwapEv.destroyOldTexture loadDiskTextureEvents <
       List.indexOf SwapEv.rebuildBindGroup loadDiskTextureEvents) ∧
    (List.indexOf SwapEv.createNewTexture loadSkyTextureEvents <
       List.indexOf SwapEv.destroyOldTexture loadSkyTextureEvents ∧
     List.indexOf SwapEv.copyImageToTexture loadSkyTextureEvents <
       List.indexOf SwapEv.destroyOldTexture loadSkyTextureEvents ∧
     List.indexOf SwapEv.destroyOldTexture loadSkyTextureEvents <
       List.indexOf SwapEv.rebuildBindGroup loadSkyTextureEvents) := by
  constructor
  · refine ⟨by decide, by decide, by decide⟩
  · refine ⟨by decide, by decide, by decide⟩

/-- Four-component color, the model of WGSL `vec4<f32>` color values in
the kernel (channels in normalized units where 1.0 is full intensity). -/
structure Color4 where
  r : ℝ
  g : ℝ
  b : ℝ
  a : ℝ

namespace Color4

@[ext] theorem ext_rgba {c d : Color4} (hr : c.r = d.r) (hg : c.g = d.g)
    (hb : c.b = d.b) (ha : c.a = d.a) : c = d := by
  cases c; cases d; simp_all

instance : Add Color4 := ⟨fun c d => ⟨c.r + d.r, c.g + d.g, c.b + d.b, c.a + d.a⟩⟩

instance : SMul ℝ Color4 := ⟨fun t c => ⟨t * c.r, t * c.g, t * c.b, t * c.a⟩⟩

@[simp] theorem add_r (c d : Color4) : (c + d).r = c.r + d.r := rfl
@[simp] theorem add_g (c d : Color4) : (c + d).g = c.g + d.g := rfl
@[simp] theorem add_b (c d : Color4) : (c + d).b = c.b + d.b := rfl
@[simp] theorem add_a (c d : Color4) : (c + d).a = c.a + d.a := rfl
@[simp] theorem smul_r (t : ℝ) (c : Color4) : (t • c).r = t * c.r := rfl
@[simp] theorem smul_g (t : ℝ) (c : Color4) : (t • c).g = t * c.g := rfl
@[simp] theorem smul_b (t : ℝ) (c : Color4) : (t • c).b = t * c.b := rfl
@[simp] theorem smul_a (t : ℝ) (c : Color4) : (t • c).a = t * c.a := rfl
@[simp] theorem mk_r (p q s t : ℝ) : (Color4.mk p q s t).r = p := rfl
@[simp] theorem mk_g (p q s t : ℝ) : (Color4.mk p q s t).g = q := rfl
@[simp] theorem mk_b (p q s t : ℝ) : (Color4.mk p q s t).b = s := rfl
@[simp] theorem mk_a (p q s t : ℝ) : (Color4.mk p q s t).a = t := rfl

end Color4

/-- Embedding of the accumulation step at the end of the kernel `main`:
given the frame counter `F`, the prior accumulator `A` and the freshly
traced ray color `Rc`, produce the pair (accumulation-buffer write,
output-image write).  When `F > 0` both receive the blend with weight
`w = F/(F+1)`; at `F = 0` both receive `Rc` directly. -/
def mainBlend (F : ℕ) (A Rc : Color4) : Color4 × Color4 :=
  if (F : ℝ) > 0 then
    let w : ℝ := (F : ℝ) / ((F : ℝ) + 1)
    let c : Color4 := w • A + (1 - w) • Rc
    (c, c)
  else (Rc, Rc)

/-- Accumulator contents after the frame with counter `F` has run, when
the per-frame ray colors are `R 0, R 1, ...` and the buffer initially
holds `A0` (the kernel ignores `A0` because the `F = 0` frame overwrites
it). -/
def accumAfter (A0 : Color4) (R : ℕ → Color4) : ℕ → Color4
  | 0 => (mainBlend 0 A0 (R 0)).1
  | F + 1 => (mainBlend (F + 1) (accumAfter A0 R F) (R (F + 1))).1

/-- Sum of the per-frame ray colors `R 0 + ... + R F`. -/
def sumColors (R : ℕ → Color4) : ℕ → Color4
  | 0 => R 0
  | F + 1 => sumColors R F + R (F + 1)

theorem mainBlend_zero (A Rc : Color4) : mainBlend 0 A Rc = (Rc, Rc) := by
  simp [mainBlend]

theorem mainBlend_succ (F : ℕ) (A Rc : Color4) :
    mainBlend (F + 1) A Rc =
      ((((F : ℝ) + 1) / ((F : ℝ) + 2)) • A + (1 - ((F : ℝ) + 1) / ((F : ℝ) + 2)) • Rc,
       (((F : ℝ) + 1) / ((F : ℝ) + 2)) • A + (1 - ((F : ℝ) + 1) / ((F : ℝ) + 2)) • Rc) := by
  have hpos : ((F + 1 : ℕ) : ℝ) > 0 := by positivity
  simp only [mainBlend, if_pos hpos]
  push_cast
  have h21 : (F : ℝ) + 1 + 1 = (F : ℝ) + 2 := by ring
  rw [h21]

/-- Claim C2: the kernel writes the ray color directly to both the
accumulation buffer and the output image on frame 0; on frame `F+1` it
writes `A·w + R·(1−w)` with `w = (F+1)/(F+2)` to both; consequently the
accumulator after frame `F` equals the arithmetic mean of the `F+1`
per-frame ray colors, for any initial buffer contents. -/
theorem c2_accumulation_running_mean (A0 A Rc : Color4) (R : ℕ → Color4) (F : ℕ) :
    mainBlend 0 A Rc = (Rc, Rc) ∧
    mainBlend (F + 1) A Rc =
      ((((F : ℝ) + 1) / ((F : ℝ) + 2)) • A + (1 - ((F : ℝ) + 1) / ((F : ℝ) + 2)) • Rc,
       (((F : ℝ) + 1) / ((F : ℝ) + 2)) • A + (1 - ((F : ℝ) + 1) / ((F : ℝ) + 2)) • Rc) ∧
    accumAfter A0 R F = (((F : ℝ) + 1))⁻¹ • sumColors R F := by
  refine ⟨mainBlend_zero A Rc, mainBlend_succ F A Rc, ?_⟩
  induction F with
  | zero =>
      simp [accumAfter, sumColors, mainBlend_zero]
      ext <;> simp
  | succ F ih =>
      have h1 : ((F : ℝ) + 1) ≠ 0 := by positivity
      have h2 : ((F : ℝ) + 2) ≠ 0 := by positivity
      simp only [accumAfter, ih, mainBlend_succ]
      ext <;> simp [sumColors] <;> field_simp <;> ring

/-- Embedding of the ODE substep shared by
`SchwarzschildBlackHoleEquation.functionWithStep` (CPU) and the WGSL
`applyEquation`: advance the position by `v·s`, compute the acceleration
`p · (k·h2 / (|p|²)^2.5)` at the new position, then advance the velocity
by `a·s`.  Returns the updated (position, velocity) pair. -/
def applyEquation (k h2 : ℝ) (p v : Vec3) (s : ℝ) : Vec3 × Vec3 :=
  (p + s • v,
   v + s • ((k * h2 / normSq (p + s • v) ^ (2.5 : ℝ)) • (p + s • v)))

/-- Embedding of the adaptive step size used per iteration, from
`SchwarzschildBlackHoleEquation.function` and the kernel loop:
`(|p| / 30) · stepSize`. -/
def adaptiveStep (stepSize : ℝ) (p : Vec3) : ℝ := vnorm p / 30 * stepSize

/-- Raising a squared norm to the real power 2.5 equals the fifth power of
the norm. -/
theorem rpow_two_and_half_eq_norm_pow_five (w : Vec3) :
    normSq w ^ (2.5 : ℝ) = vnorm w ^ (5 : ℕ) := by
  have hnn : (0 : ℝ) ≤ normSq w := normSq_nonneg w
  have h52 : (2.5 : ℝ) = (1 / 2 : ℝ) * (5 : ℕ) := by norm_num
  rw [h52, Real.rpow_mul hnn, Real.rpow_natCast, vnorm, Real.sqrt_eq_rpow]

/-- With a vanishing potential coefficient the substep leaves the velocity
unchanged and translates the position by `v·s`. -/
theorem applyEquation_zero_coef (h2 : ℝ) (p v : Vec3) (s : ℝ) :
    applyEquation 0 h2 p v s = (p + s • v, v) := by
  unfold applyEquation
  refine Prod.ext rfl ?_
  simp only [zero_mul, zero_div]
  ext <;> simp

/-- Claim C3: one ODE substep of size `s` maps `(p, v)` to
`(p + v·s, v + a·s)` where the acceleration `a = p' · (k·h2 / |p'|⁵)` is
taken at the updated position `p'` (the exponent 2.5 on `|p'|²` equals the
fifth power of the norm); the adaptive step used per iteration is
`(|p|/30)·stepSize`; and with `k = 0` the substep is straight-line motion
with unchanged velocity. -/
theorem c3_ode_substep (p v : Vec3) (k h2 stepSize s : ℝ) (_hp : 0 < vnorm p) :
    applyEquation k h2 p v s =
      (p + s • v, v + s • ((k * h2 / vnorm (p + s • v) ^ (5 : ℕ)) • (p + s • v))) ∧
    adaptiveStep stepSize p = vnorm p / 30 * stepSize ∧
    applyEquation 0 h2 p v s = (p + s • v, v) := by
  refine ⟨?_, rfl, applyEquation_zero_coef h2 p v s⟩
  unfold applyEquation
  rw [rpow_two_and_half_eq_norm_pow_five]

/-- Claim C3 witness: the substep theorem instantiated at the unit point
`(1,0,0)` with unit velocity `(0,1,0)` and coefficient zero, discharging
the positivity hypothesis there. -/
theorem c3_witness :
    0 < vnorm ⟨1, 0, 0⟩ ∧
    applyEquation 0 1 ⟨1, 0, 0⟩ ⟨0, 1, 0⟩ 1 =
      (⟨1, 0, 0⟩ + (1 : ℝ) • ⟨0, 1, 0⟩, ⟨0, 1, 0⟩) := by
  have hn : vnorm ⟨1, 0, 0⟩ = 1 := by
    simp [vnorm, normSq]
  have hp : 0 < vnorm (⟨1, 0, 0⟩ : Vec3) := by rw [hn]; exact zero_lt_one
  exact ⟨hp, (c3_ode_substep ⟨1, 0, 0⟩ ⟨0, 1, 0⟩ 0 1 1 1 hp).2.2⟩

/-- Real-valued truncation toward zero, the rounding used by the WGSL `%`
operator on floats. -/
def truncR (t : ℝ) : ℝ := if 0 ≤ t then (⌊t⌋ : ℝ) else (⌈t⌉ : ℝ)

/-- Embedding of the wrap-to-nonnegative idiom of the kernel mappings:
`x % 1.0` (WGSL truncated remainder) followed by `if (x < 0) x += 1`. -/
def wrap01 (t : ℝ) : ℝ :=
  if t - truncR t < 0 then t - truncR t + 1 else t - truncR t

/-- The kernel's wrap of a real to `[0,1)` agrees with the mathematical
fractional part. -/
theorem wrap01_eq_fract (t : ℝ) : wrap01 t = Int.fract t := by
  unfold wrap01 truncR
  by_cases h0 : 0 ≤ t
  · rw [if_pos h0]
    have hnn : 0 ≤ t - (⌊t⌋ : ℝ) := by
      have := Int.floor_le t; linarith
    rw [if_neg (not_lt.mpr hnn), Int.fract]
  · rw [if_neg h0]
    push_neg at h0
    by_cases hm : t - (⌈t⌉ : ℝ) < 0
    · rw [if_pos hm]
      have hlt : (⌊t⌋ : ℝ) < (⌈t⌉ : ℝ) := by
        have hf := Int.floor_le t
        linarith
      have hfl : ⌊t⌋ < ⌈t⌉ := by exact_mod_cast hlt
      have hle : ⌈t⌉ ≤ ⌊t⌋ + 1 := by
        apply Int.ceil_le.mpr
        push_cast
        exact le_of_lt (Int.lt_floor_add_one t)
      have hceq : ⌈t⌉ = ⌊t⌋ + 1 := by omega
      rw [Int.fract, hceq]
      push_cast
      ring
    · rw [if_neg hm]
      push_neg at hm
      have hle : t ≤ (⌈t⌉ : ℝ) := Int.le_ceil t
      have heq : t = ((⌈t⌉ : ℤ) : ℝ) := le_antisymm hle (by linarith)
      have hfc : ⌊t⌋ = ⌈t⌉ := by
        rw [heq]; simp
      rw [Int.fract, hfc]

/-- Embedding of the WGSL `mapDiskCoords`: out-of-range radii yield
`(0, 1)`; otherwise the wrapped angular fraction is snapped to 0.49 below
one half and to 0.51 otherwise, and the radial coordinate is clamped to
`[0, 1]`.  The kernel writes the circle constant as the literal
3.14159. -/
def mapDiskCoords (innerRadius outerRadius r phi : ℝ) : ℝ × ℝ :=
  if r < innerRadius ∨ r > outerRadius then (0, 1)
  else
    (if wrap01 (phi / (2 * 3.14159)) < 0.5 then (0.49 : ℝ) else 0.51,
     min (max ((r - innerRadius) / (outerRadius - innerRadius)) 0) 1)

/-- Disk UV mapping as worded by the specification: `(0,1)` outside the
annulus, otherwise `u` is the fractional part of `phi/2π` snapped to 0.49
on the near half and 0.51 on the far half, and
`v = clamp((r−rInner)/(rOuter−rInner), 0, 1)`; the circle constant is the
kernel's 3.14159. -/
def diskUVSpec (rInner rOuter r phi : ℝ) : ℝ × ℝ :=
  if r < rInner ∨ r > rOuter then (0, 1)
  else
    (if Int.fract (phi / (2 * 3.14159)) < 0.5 then (0.49 : ℝ) else 0.51,
     min (max ((r - rInner) / (rOuter - rInner)) 0) 1)

/-- Claim C7: the kernel's disk UV mapping returns `(0,1)` whenever the
radius is outside `[rInner, rOuter]` and otherwise snaps the wrapped
angular fraction to 0.49 below one half and 0.51 otherwise, with the
radial coordinate clamped to `[0,1]` — the mapping coincides with the
specification formula pointwise. -/
theorem c7_disk_uv_mapping (rInner rOuter r phi : ℝ) :
    mapDiskCoords rInner rOuter r phi = diskUVSpec rInner rOuter r phi := by
  unfold mapDiskCoords diskUVSpec
  rw [wrap01_eq_fract]

/-- Embedding of the WGSL `mapSkyCoords`: both angular coordinates are
wrapped to `[0,1)`. -/
def mapSkyCoords (theta phi : ℝ) : ℝ × ℝ :=
  (wrap01 (phi / (2 * 3.14159)), wrap01 (theta / 3.14159))

/-- Embedding of the WGSL `mixColor`: transparent tint returns the hit
color unchanged, otherwise channelwise average capped at 1 with opaque
alpha. -/
def mixColor (hitColor tintColor : Color4) : Color4 :=
  if tintColor.a = 0 then hitColor
  else
    ⟨min ((hitColor.r + tintColor.r) / 2) 1,
     min ((hitColor.g + tintColor.g) / 2) 1,
     min ((hitColor.b + tintColor.b) / 2) 1, 1⟩

/-- Lightness of a color as used by the kernel's `addColor`: mean of the
largest and smallest RGB channel. -/
def brightness (c : Color4) : ℝ :=
  (max (max c.r c.g) c.b + min (min c.r c.g) c.b) / 2

/-- Embedding of the WGSL `addColor`: transparent tint returns the hit
color; otherwise each channel is `(1−b)·hit + max(tint,0)·255/205` capped
at 1, with opaque alpha, where `b` is the brightness of the tint. -/
def addColor (hitColor tintColor : Color4) : Color4 :=
  if tintColor.a = 0 then hitColor
  else
    ⟨min ((1 - brightness tintColor) * hitColor.r + max tintColor.r 0 * (255 / 205)) 1,
     min ((1 - brightness tintColor) * hitColor.g + max tintColor.g 0 * (255 / 205)) 1,
     min ((1 - brightness tintColor) * hitColor.b + max tintColor.b 0 * (255 / 205)) 1, 1⟩

/-- Embedding of the seam-mitigation block in the kernel's disk-plane
path: three guard bands inside `(0.52, 0.99)` replace the sample.  In the
source each branch computes a `mixColor` whose result is immediately
overwritten by the plain replacement sample, so the branch value is the
replacement sample (or their `mixColor` blend in the middle band). -/
def seamAdjust (tex : ℝ × ℝ → Color4) (uv : ℝ × ℝ) : Color4 :=
  if uv.1 > 0.52 ∧ uv.1 < 0.52 + (0.99 - 0.52) / 3 then tex (0.52, uv.2)
  else if uv.1 > 0.52 + (0.99 - 0.52) / 3 ∧ uv.1 < 0.52 + 2 * ((0.99 - 0.52) / 3) then
    mixColor (tex (0.52, uv.2)) (tex (0.99, uv.2))
  else if uv.1 > 0.52 + 2 * ((0.99 - 0.52) / 3) ∧ uv.1 < 0.99 then tex (0.99, uv.2)
  else tex uv

/-- The first component of the disk UV mapping only ever takes the values
0, 0.49 and 0.51. -/
theorem mapDiskCoords_fst_mem (rInner rOuter r phi : ℝ) :
    (mapDiskCoords rInner rOuter r phi).1 = 0 ∨
    (mapDiskCoords rInner rOuter r phi).1 = 0.49 ∨
    (mapDiskCoords rInner rOuter r phi).1 = 0.51 := by
  unfold mapDiskCoords
  split_ifs <;> simp

/-- Seam mitigation is the identity on any UV whose first component does
not exceed 0.52. -/
theorem seamAdjust_of_le (tex : ℝ × ℝ → Color4) (uv : ℝ × ℝ) (h : uv.1 ≤ 0.52) :
    seamAdjust tex uv = tex uv := by
  unfold seamAdjust
  rw [if_neg, if_neg, if_neg]
  · rintro ⟨h1, -⟩; linarith
  · rintro ⟨h1, -⟩; linarith
  · rintro ⟨h1, -⟩; linarith

/-- Claim C10: the disk UV mapping only produces `u ∈ {0, 0.49, 0.51}`, so
the kernel's seam-mitigation branches, guarded by `u` strictly inside
`(0.52, 0.99)`, are never taken on a disk sample: the plane-crossing disk
color is always the unmodified texture sample at the snapped
coordinate. -/
theorem c10_seam_mitigation_dead (rInner rOuter r phi : ℝ) (tex : ℝ × ℝ → Color4) :
    ((mapDiskCoords rInner rOuter r phi).1 = 0 ∨
     (mapDiskCoords rInner rOuter r phi).1 = 0.49 ∨
     (mapDiskCoords rInner rOuter r phi).1 = 0.51) ∧
    seamAdjust tex (mapDiskCoords rInner rOuter r phi) =
      tex (mapDiskCoords rInner rOuter r phi) := by
  refine ⟨mapDiskCoords_fst_mem rInner rOuter r phi, ?_⟩
  rcases mapDiskCoords_fst_mem rInner rOuter r phi with h | h | h <;>
    exact seamAdjust_of_le tex _ (by rw [h]; norm_num)

/-- Claim C8: `addColor` returns the existing color unchanged on a
transparent sample, and otherwise each channel is
`clamp((1−b)·existing + max(sample,0)·255/205, 0, full)` with the alpha
forced fully opaque, where `b` is the mean of the extreme RGB channels of
the sample.  Channels are in normalized units, 1.0 denoting full
intensity (255). -/
theorem c8_addColor_formula (S C : Color4)
    (hCr : 0 ≤ C.r) (hCg : 0 ≤ C.g) (hCb : 0 ≤ C.b)
    (hSr : S.r ≤ 1) (hSg : S.g ≤ 1) (hSb : S.b ≤ 1) :
    (S.a = 0 → addColor C S = C) ∧
    (S.a ≠ 0 →
      addColor C S =
        ⟨min (max ((1 - brightness S) * C.r + max S.r 0 * (255 / 205)) 0) 1,
         min (max ((1 - brightness S) * C.g + max S.g 0 * (255 / 205)) 0) 1,
         min (max ((1 - brightness S) * C.b + max S.b 0 * (255 / 205)) 0) 1, 1⟩) := by
  constructor
  · intro h
    simp [addColor, h]
  · intro h
    have hb : brightness S ≤ 1 := by
      have hmax : max (max S.r S.g) S.b ≤ 1 := by
        simp [max_le_iff]; exact ⟨⟨hSr, hSg⟩, hSb⟩
      have hmin : min (min S.r S.g) S.b ≤ 1 :=
        le_trans (min_le_right _ _) hSb
      unfold brightness
      linarith
    have key : ∀ c s : ℝ, 0 ≤ c → s ≤ 1 →
        max ((1 - brightness S) * c + max s 0 * (255 / 205)) 0 =
          (1 - brightness S) * c + max s 0 * (255 / 205) := by
      intro c s hc _
      refine max_eq_left ?_
      have h1 : 0 ≤ (1 - brightness S) * c := by
        apply mul_nonneg
        · linarith
        · exact hc
      have h2 : (0 : ℝ) ≤ max s 0 * (255 / 205) := by
        apply mul_nonneg (le_max_right s 0)
        norm_num
      linarith
    unfold addColor
    rw [if_neg h]
    rw [key C.r S.r hCr hSr, key C.g S.g hCg hSg, key C.b S.b hCb hSb]

/-- Claim C8 witness: the formula theorem applied to the opaque white
sample over the transparent-black existing color, discharging the range
hypotheses there. -/
theorem c8_witness :
    ((Color4.mk 1 1 1 1).a ≠ 0) ∧
    addColor ⟨0, 0, 0, 0⟩ ⟨1, 1, 1, 1⟩ =
      ⟨min (max ((1 - brightness ⟨1, 1, 1, 1⟩) * 0 + max 1 0 * (255 / 205)) 0) 1,
       min (max ((1 - brightness ⟨1, 1, 1, 1⟩) * 0 + max 1 0 * (255 / 205)) 0) 1,
       min (max ((1 - brightness ⟨1, 1, 1, 1⟩) * 0 + max 1 0 * (255 / 205)) 0) 1, 1⟩ :=
  ⟨one_ne_zero,
   (c8_addColor_formula ⟨1, 1, 1, 1⟩ ⟨0, 0, 0, 0⟩
      le_rfl le_rfl le_rfl le_rfl le_rfl le_rfl).2 one_ne_zero⟩

/-- One round of the kernel's horizon bisection.  The loop state is
`(stepLow, stepHigh, lastMid)`: each round recomputes the trial point
`prevPoint + mid·dir` from scratch (the source resets `intersectionPoint`
and `tempVelocity` at the top of every round), compares its distance to
the horizon radius, and narrows the bracket. -/
def bisectRound (pPrev d : Vec3) (rH : ℝ) (st : ℝ × ℝ × ℝ) : ℝ × ℝ × ℝ :=
  if vnorm (pPrev + ((st.1 + st.2.1) / 2) • d) < rH
  then (st.1, (st.1 + st.2.1) / 2, (st.1 + st.2.1) / 2)
  else ((st.1 + st.2.1) / 2, st.2.1, (st.1 + st.2.1) / 2)

/-- The kernel's horizon bisection: ten rounds starting from the bracket
`[0, step]`, with the trial point recomputed from `prevPoint` and the
post-substep ray direction each round. -/
def bisectLoop (pPrev d : Vec3) (rH s : ℝ) : ℝ × ℝ × ℝ :=
  (bisectRound pPrev d rH)^[10] (0, s, 0)

/-- The intersection point left behind by the last bisection round:
`prevPoint + lastMid·dir`. -/
def bisectPoint (pPrev d : Vec3) (rH s : ℝ) : Vec3 :=
  pPrev + (bisectLoop pPrev d rH s).2.2 • d

/-- The refined velocity left behind by the last bisection round:
`dir + accel·lastMid` with the acceleration taken at the intersection
point (it is computed but not consumed by the kernel afterwards). -/
def bisectVelocity (pPrev d : Vec3) (k h2 rH s : ℝ) : Vec3 :=
  d + (bisectLoop pPrev d rH s).2.2 •
    ((k * h2 / normSq (bisectPoint pPrev d rH s) ^ (2.5 : ℝ)) • bisectPoint pPrev d rH s)

/-- Bracket invariant of the bisection: iterating from `(0, s, 0)` keeps
`0 ≤ low ≤ high ≤ s` and the last midpoint inside `[0, s]`. -/
theorem bisectIter_inv (pPrev d : Vec3) (rH s : ℝ) (hs : 0 ≤ s) (n : ℕ) :
    0 ≤ ((bisectRound pPrev d rH)^[n] (0, s, 0)).1 ∧
    ((bisectRound pPrev d rH)^[n] (0, s, 0)).1 ≤ ((bisectRound pPrev d rH)^[n] (0, s, 0)).2.1 ∧
    ((bisectRound pPrev d rH)^[n] (0, s, 0)).2.1 ≤ s ∧
    0 ≤ ((bisectRound pPrev d rH)^[n] (0, s, 0)).2.2 ∧
    ((bisectRound pPrev d rH)^[n] (0, s, 0)).2.2 ≤ s := by
  induction n with
  | zero => exact ⟨le_rfl, hs, le_rfl, le_rfl, hs⟩
  | succ n ih =>
      obtain ⟨h1, h2, h3, -, -⟩ := ih
      rw [Function.iterate_succ_apply']
      set st := (bisectRound pPrev d rH)^[n] (0, s, 0) with hst
      unfold bisectRound
      split_ifs <;> constructor <;> simp only [] <;>
        first
          | linarith
          | (constructor <;> first | linarith | (constructor <;> first | linarith | (constructor <;> linarith)))

/-- The bracket width halves every bisection round. -/
theorem bisectIter_width (pPrev d : Vec3) (rH s : ℝ) (n : ℕ) :
    ((bisectRound pPrev d rH)^[n] (0, s, 0)).2.1 - ((bisectRound pPrev d rH)^[n] (0, s, 0)).1 =
      s / 2 ^ n := by
  induction n with
  | zero => simp
  | succ n ih =>
      rw [Function.iterate_succ_apply']
      set st := (bisectRound pPrev d rH)^[n] (0, s, 0) with hst
      have hps : s / 2 ^ (n + 1) = s / 2 ^ n / 2 := by
        rw [pow_succ]; ring
      unfold bisectRound
      split_ifs <;> simp only [] <;> linarith [ih, hps]

/-- The proposition asserted by claim C9: for every bracketed horizon
crossing the bisection, run with the post-substep ray direction as the
source does, lands within `2⁻¹⁰·s` of the horizon radius. -/
def horizonRefinementAccurate : Prop :=
  ∀ (pPrev v : Vec3) (k h2 rH s : ℝ),
    0 < rH → 0 < s →
    rH < vnorm pPrev →
    vnorm (applyEquation k h2 pPrev v s).1 < rH →
    |vnorm (bisectPoint pPrev (applyEquation k h2 pPrev v s).2 rH s) - rH| < s / 2 ^ 10

/-- The norm of a point on the positive x-axis is its x-coordinate. -/
theorem vnorm_xaxis (a : ℝ) (h : 0 ≤ a) : vnorm ⟨a, 0, 0⟩ = a := by
  have : normSq ⟨a, 0, 0⟩ = a * a := by simp [normSq]
  rw [vnorm, this, Real.sqrt_mul_self h]

/-- Claim C9 counterexample: with `p₋ = (5/2,0,0)`, `v = (−1,0,0)`,
`s = 1`, `k = 5`, `h2 = 243/16` and `rH = 2`, the substep lands at
`(3/2,0,0)` inside the horizon, but the post-substep velocity is
`(14,0,0)`, every bisection trial point lies outside the horizon, and the
final intersection point `(8441/512, 0, 0)` is distance `7417/512` from
the horizon radius, far above `2⁻¹⁰·s`. -/
theorem c9_counterexample : ¬ horizonRefinementAccurate := by
  intro hcl
  have hpow : normSq (⟨3 / 2, 0, 0⟩ : Vec3) ^ (2.5 : ℝ) = 243 / 32 := by
    rw [rpow_two_and_half_eq_norm_pow_five, vnorm_xaxis (3 / 2) (by norm_num)]
    norm_num
  have happ : applyEquation 5 (243 / 16) ⟨5 / 2, 0, 0⟩ ⟨-1, 0, 0⟩ 1 =
      (⟨3 / 2, 0, 0⟩, ⟨14, 0, 0⟩) := by
    unfold applyEquation
    have hp1 : (⟨5 / 2, 0, 0⟩ : Vec3) + (1 : ℝ) • ⟨-1, 0, 0⟩ = ⟨3 / 2, 0, 0⟩ := by
      ext <;> simp <;> norm_num
    rw [hp1, hpow]
    refine Prod.ext rfl ?_
    ext <;> simp <;> norm_num
  have hround : ∀ st : ℝ × ℝ × ℝ, 0 ≤ st.1 → 0 ≤ st.2.1 →
      bisectRound ⟨5 / 2, 0, 0⟩ ⟨14, 0, 0⟩ 2 st =
        ((st.1 + st.2.1) / 2, st.2.1, (st.1 + st.2.1) / 2) := by
    intro st hl hh
    unfold bisectRound
    rw [if_neg]
    intro hlt
    have hm : 0 ≤ (st.1 + st.2.1) / 2 := by linarith
    have hpt : (⟨5 / 2, 0, 0⟩ : Vec3) + ((st.1 + st.2.1) / 2) • ⟨14, 0, 0⟩ =
        ⟨5 / 2 + (st.1 + st.2.1) / 2 * 14, 0, 0⟩ := by
      ext <;> simp [mul_comm]
    rw [hpt, vnorm_xaxis _ (by linarith)] at hlt
    linarith
  have e1 : bisectRound ⟨5 / 2, 0, 0⟩ ⟨14, 0, 0⟩ 2 (0, 1, 0) = (1 / 2, 1, 1 / 2) := by
    rw [hround (0, 1, 0) (by norm_num) (by norm_num)]; norm_num
  have e2 : bisectRound ⟨5 / 2, 0, 0⟩ ⟨14, 0, 0⟩ 2 (1 / 2, 1, 1 / 2) = (3 / 4, 1, 3 / 4) := by
    rw [hround (1 / 2, 1, 1 / 2) (by norm_num) (by norm_num)]; norm_num
  have e3 : bisectRound ⟨5 / 2, 0, 0⟩ ⟨14, 0, 0⟩ 2 (3 / 4, 1, 3 / 4) = (7 / 8, 1, 7 / 8) := by
    rw [hround (3 / 4, 1, 3 / 4) (by norm_num) (by norm_num)]; norm_num
  have e4 : bisectRound ⟨5 / 2, 0, 0⟩ ⟨14, 0, 0⟩ 2 (7 / 8, 1, 7 / 8) = (15 / 16, 1, 15 / 16) := by
    rw [hround (7 / 8, 1, 7 / 8) (by norm_num) (by norm_num)]; norm_num
  have e5 : bisectRound ⟨5 / 2, 0, 0⟩ ⟨14, 0, 0⟩ 2 (15 / 16, 1, 15 / 16) =
      (31 / 32, 1, 31 / 32) := by
    rw [hround (15 / 16, 1, 15 / 16) (by norm_num) (by norm_num)]; norm_num
  have e6 : bisectRound ⟨5 / 2, 0, 0⟩ ⟨14, 0, 0⟩ 2 (31 / 32, 1, 31 / 32) =
      (63 / 64, 1, 63 / 64) := by
    rw [hround (31 / 32, 1, 31 / 32) (by norm_num) (by norm_num)]; norm_num
  have e7 : bisectRound ⟨5 / 2, 0, 0⟩ ⟨14, 0, 0⟩ 2 (63 / 64, 1, 63 / 64) =
      (127 / 128, 1, 127 / 128) := by
    rw [hround (63 / 64, 1, 63 / 64) (by norm_num) (by norm_num)]; norm_num
  have e8 : bisectRound ⟨5 / 2, 0, 0⟩ ⟨14, 0, 0⟩ 2 (127 / 128, 1, 127 / 128) =
      (255 / 256, 1, 255 / 256) := by
    rw [hround (127 / 128, 1, 127 / 128) (by norm_num) (by norm_num)]; norm_num
  have e9 : bisectRound ⟨5 / 2, 0, 0⟩ ⟨14, 0, 0⟩ 2 (255 / 256, 1, 255 / 256) =
      (511 / 512, 1, 511 / 512) := by
    rw [hround (255 / 256, 1, 255 / 256) (by norm_num) (by norm_num)]; norm_num
  have e10 : bisectRound ⟨5 / 2, 0, 0⟩ ⟨14, 0, 0⟩ 2 (511 / 512, 1, 511 / 512) =
      (1023 / 1024, 1, 1023 / 1024) := by
    rw [hround (511 / 512, 1, 511 / 512) (by norm_num) (by norm_num)]; norm_num
  have i1 : (bisectRound ⟨5 / 2, 0, 0⟩ ⟨14, 0, 0⟩ 2)^[1] (0, 1, 0) = (1 / 2, 1, 1 / 2) := by
    rw [Function.iterate_one]; exact e1
  have i2 : (bisectRound ⟨5 / 2, 0, 0⟩ ⟨14, 0, 0⟩ 2)^[2] (0, 1, 0) = (3 / 4, 1, 3 / 4) := by
    have h := Function.iterate_succ_apply'
      (bisectRound ⟨5 / 2, 0, 0⟩ ⟨14, 0, 0⟩ 2) 1 ((0 : ℝ), (1 : ℝ), (0 : ℝ))
    rw [i1] at h
    exact h.trans e2
  have i3 : (bisectRound ⟨5 / 2, 0, 0⟩ ⟨14, 0, 0⟩ 2)^[3] (0, 1, 0) = (7 / 8, 1, 7 / 8) := by
    have h := Function.iterate_succ_apply'
      (bisectRound ⟨5 / 2, 0, 0⟩ ⟨14, 0, 0⟩ 2) 2 ((0 : ℝ), (1 : ℝ), (0 : ℝ))
    rw [i2] at h
    exact h.trans e3
  have i4 : (bisectRound ⟨5 / 2, 0, 0⟩ ⟨14, 0, 0⟩ 2)^[4] (0, 1, 0) = (15 / 16, 1, 15 / 16) := by
    have h := Function.iterate_succ_apply'
      (bisectRound ⟨5 / 2, 0, 0⟩ ⟨14, 0, 0⟩ 2) 3 ((0 : ℝ), (1 : ℝ), (0 : ℝ))
    rw [i3] at h
    exact h.trans e4
  have i5 : (bisectRound ⟨5 / 2, 0, 0⟩ ⟨14, 0, 0⟩ 2)^[5] (0, 1, 0) = (31 / 32, 1, 31 / 32) := by
    have h := Function.iterate_succ_apply'
      (bisectRound ⟨5 / 2, 0, 0⟩ ⟨14, 0, 0⟩ 2) 4 ((0 : ℝ), (1 : ℝ), (0 : ℝ))
    rw [i4] at h
    exact h.trans e5
  have i6 : (bisectRound ⟨5 / 2, 0, 0⟩ ⟨14, 0, 0⟩ 2)^[6] (0, 1, 0) = (63 / 64, 1, 63 / 64) := by
    have h := Function.iterate_succ_apply'
      (bisectRound ⟨5 / 2, 0, 0⟩ ⟨14, 0, 0⟩ 2) 5 ((0 : ℝ), (1 : ℝ), (0 : ℝ))
    rw [i5] at h
    exact h.trans e6
  have i7 : (bisectRound ⟨5 / 2, 0, 0⟩ ⟨14, 0, 0⟩ 2)^[7] (0, 1, 0) =
      (127 / 128, 1, 127 / 128) := by
    have h := Function.iterate_succ_apply'
      (bisectRound ⟨5 / 2, 0, 0⟩ ⟨14, 0, 0⟩ 2) 6 ((0 : ℝ), (1 : ℝ), (0 : ℝ))
    rw [i6] at h
    exact h.trans e7
  have i8 : (bisectRound ⟨5 / 2, 0, 0⟩ ⟨14, 0, 0⟩ 2)^[8] (0, 1, 0) =
      (255 / 256, 1, 255 / 256) := by
    have h := Function.iterate_succ_apply'
      (bisectRound ⟨5 / 2, 0, 0⟩ ⟨14, 0, 0⟩ 2) 7 ((0 : ℝ), (1 : ℝ), (0 : ℝ))
    rw [i7] at h
    exact h.trans e8
  have i9 : (bisectRound ⟨5 / 2, 0, 0⟩ ⟨14, 0, 0⟩ 2)^[9] (0, 1, 0) =
      (511 / 512, 1, 511 / 512) := by
    have h := Function.iterate_succ_apply'
      (bisectRound ⟨5 / 2, 0, 0⟩ ⟨14, 0, 0⟩ 2) 8 ((0 : ℝ), (1 : ℝ), (0 : ℝ))
    rw [i8] at h
    exact h.trans e9
  have hloop : bisectLoop ⟨5 / 2, 0, 0⟩ ⟨14, 0, 0⟩ 2 1 = (1023 / 1024, 1, 1023 / 1024) := by
    unfold bisectLoop
    have h := Function.iterate_succ_apply'
      (bisectRound ⟨5 / 2, 0, 0⟩ ⟨14, 0, 0⟩ 2) 9 ((0 : ℝ), (1 : ℝ), (0 : ℝ))
    rw [i9] at h
    exact h.trans e10
  have hbp : bisectPoint ⟨5 / 2, 0, 0⟩ ⟨14, 0, 0⟩ 2 1 = ⟨8441 / 512, 0, 0⟩ := by
    unfold bisectPoint
    rw [hloop]
    ext <;> simp <;> norm_num
  have hfar := hcl ⟨5 / 2, 0, 0⟩ ⟨-1, 0, 0⟩ 5 (243 / 16) 2 1 (by norm_num) (by norm_num)
    (by rw [vnorm_xaxis (5 / 2) (by norm_num)]; norm_num)
    (by rw [happ]; rw [vnorm_xaxis (3 / 2) (by norm_num)]; norm_num)
  rw [happ] at hfar
  rw [hbp] at hfar
  rw [vnorm_xaxis _ (by norm_num)] at hfar
  have habs : |(8441 : ℝ) / 512 - 2| = 7417 / 512 := by
    rw [show (8441 : ℝ) / 512 - 2 = 7417 / 512 by norm_num]
    exact abs_of_pos (by norm_num)
  rw [habs] at hfar
  norm_num at hfar

/-- Claim C9 (amended): the horizon refinement performs exactly ten
bisection rounds on the substep bracket `[0, s]`, re-running the position
update from `p₋` with the post-substep velocity each trial; after the ten
rounds the bracket width is exactly `2⁻¹⁰·s` and the final trial substep
lies in `[0, s]`, with the crossing point `p₋ + lastMid·dir`.  The
claimed distance bound from the horizon radius does not hold in
general. -/
theorem c9_bisection_ten_rounds (pPrev d : Vec3) (rH s : ℝ) (hs : 0 ≤ s) :
    bisectLoop pPrev d rH s = (bisectRound pPrev d rH)^[10] (0, s, 0) ∧
    (bisectLoop pPrev d rH s).2.1 - (bisectLoop pPrev d rH s).1 = s / 2 ^ 10 ∧
    0 ≤ (bisectLoop pPrev d rH s).2.2 ∧ (bisectLoop pPrev d rH s).2.2 ≤ s ∧
    bisectPoint pPrev d rH s = pPrev + (bisectLoop pPrev d rH s).2.2 • d := by
  obtain ⟨-, -, -, hm0, hm1⟩ := bisectIter_inv pPrev d rH s hs 10
  exact ⟨rfl, bisectIter_width pPrev d rH s 10, hm0, hm1, rfl⟩

/-- Claim C9 witness: the amended theorem at a concrete bracket of width
one, discharging the nonnegativity hypothesis there. -/
theorem c9_witness :
    (0 : ℝ) ≤ 1 ∧
    (bisectLoop ⟨3, 0, 0⟩ ⟨0, 0, 0⟩ 2 1).2.1 - (bisectLoop ⟨3, 0, 0⟩ ⟨0, 0, 0⟩ 2 1).1 =
      1 / 2 ^ 10 :=
  ⟨zero_le_one, (c9_bisection_ten_rounds ⟨3, 0, 0⟩ ⟨0, 0, 0⟩ 2 1 zero_le_one).2.1⟩

/-- Model of WGSL `atan2`, used only inside texture-coordinate
computations. -/
def watan2 (y x : ℝ) : ℝ :=
  if 0 < x then Real.arctan (y / x)
  else if x < 0 ∧ 0 ≤ y then Real.arctan (y / x) + Real.pi
  else if x < 0 ∧ y < 0 then Real.arctan (y / x) - Real.pi
  else if x = 0 ∧ 0 < y then Real.pi / 2
  else if x = 0 ∧ y < 0 then -(Real.pi / 2)
  else 0

/-- Embedding of the WGSL `toSpherical`: zero radius maps to the origin
triple, otherwise `(r, acos(z/r), atan2(y, x))`. -/
def toSphericalW (p : Vec3) : ℝ × ℝ × ℝ :=
  if vnorm p = 0 then (0, 0, 0)
  else (vnorm p, Real.arccos (p.z / vnorm p), watan2 p.y p.x)

/-- Model of the WGSL builtin `normalize`: divide by the length. -/
def wnormalize (v : Vec3) : Vec3 := (1 / vnorm v) • v

/-- The per-frame uniforms consumed by the compute kernel, as packed by
`RayProcessor.updateUniforms`. -/
structure Uni where
  potentialCoefficient : ℝ
  stepSize : ℝ
  width : ℝ
  height : ℝ
  diskInnerRadius : ℝ
  diskOuterRadius : ℝ
  skyRadius : ℝ
  horizonRadius : ℝ
  tanFov : ℝ
  cameraPosition : Vec3
  cameraLookAt : Vec3
  cameraUp : Vec3
  maxIterations : ℕ

/-- Per-ray loop state of the kernel: current position, current velocity,
accumulated color, and the stop flag. -/
structure TState where
  origin : Vec3
  dir : Vec3
  col : Color4
  stop : Bool

/-- The plane-side indicator computed at the top of the kernel's disk
check: `-1` above the plane, `1` below, `0` on it. -/
def sideOf (py : ℝ) : ℝ := if py > 0 then -1 else if py < 0 then 1 else 0

/-- Embedding of the kernel's disk-plane crossing check: when the sign of
`y` flips (or touches zero) and the crossing lies in the annulus, the
seam-adjusted disk sample is composited onto the color; otherwise the
color passes through.  `phi` is the azimuth from `toSpherical` at the
current point. -/
def diskPlaneStep (U : Uni) (diskTex : ℝ × ℝ → Color4) (prevPoint o : Vec3) (phi : ℝ)
    (col : Color4) : Color4 :=
  if o.y * sideOf prevPoint.y ≥ 0 then
    if o.x * o.x + o.z * o.z ≥ U.diskInnerRadius * U.diskInnerRadius ∧
        o.x * o.x + o.z * o.z ≤ U.diskOuterRadius * U.diskOuterRadius then
      addColor (seamAdjust diskTex (mapDiskCoords U.diskInnerRadius U.diskOuterRadius
        (Real.sqrt (o.x * o.x + o.z * o.z)) phi)) col
    else col
  else col

/-- Embedding of the kernel's horizon branch after a crossing was
detected: refine by bisection, then either paint the disk texture when
the refined point lies near the disk plane inside the annulus
(disk-through-horizon), or composite black; either way the ray stops. -/
def horizonHitState (U : Uni) (diskTex : ℝ × ℝ → Color4) (prevPoint o d : Vec3) (step : ℝ)
    (col : Color4) : TState :=
  let c := bisectPoint prevPoint d U.horizonRadius step
  if |c.y| < 0.1 ∧ c.x * c.x + c.z * c.z ≥ U.diskInnerRadius * U.diskInnerRadius ∧
      c.x * c.x + c.z * c.z ≤ U.diskOuterRadius * U.diskOuterRadius then
    ⟨o, d, diskTex (mapDiskCoords U.diskInnerRadius U.diskOuterRadius
      (Real.sqrt (c.x * c.x + c.z * c.z)) (watan2 c.z c.x)), true⟩
  else ⟨o, d, addColor ⟨0, 0, 0, 1⟩ col, true⟩

/-- One iteration of the kernel's ray-tracing loop: break on `stop`,
otherwise remember the previous point, advance by the adaptive substep,
then run the horizon, disk-plane and sky checks in source order (the
horizon branch `continue`s past the other two). -/
def traceIter (U : Uni) (diskTex skyTex : ℝ × ℝ → Color4) (h2 : ℝ) (s : TState) : TState :=
  if s.stop then s
  else
    let prevPoint := s.origin
    let step := vnorm s.origin / 30 * U.stepSize
    let upd := applyEquation U.potentialCoefficient h2 s.origin s.dir step
    let o := upd.1
    let d := upd.2
    let sph := toSphericalW o
    if normSq o < U.horizonRadius * U.horizonRadius ∧
        normSq prevPoint > U.horizonRadius * U.horizonRadius then
      horizonHitState U diskTex prevPoint o d step s.col
    else
      let col1 := diskPlaneStep U diskTex prevPoint o sph.2.2 s.col
      if normSq o > U.skyRadius * U.skyRadius then
        ⟨o, d, addColor (skyTex (mapSkyCoords sph.2.1 sph.2.2)) col1, true⟩
      else ⟨o, d, col1, false⟩

/-- Camera forward vector of the kernel:
`normalize(lookAt − position)`. -/
def cameraFront (U : Uni) : Vec3 := wnormalize (U.cameraLookAt - U.cameraPosition)

/-- Camera left vector of the kernel: `normalize(up × front)`. -/
def cameraLeft (U : Uni) : Vec3 := wnormalize (cross3 U.cameraUp (cameraFront U))

/-- Camera corrected up vector of the kernel: `front × left`. -/
def cameraUpv (U : Uni) : Vec3 := cross3 (cameraFront U) (cameraLeft U)

/-- Jittered horizontal screen coordinate of a pixel.  The pseudo-random
jitter drawn from the sine hash and already multiplied by the decaying
jitter scale is modelled by the explicit parameter `jit`. -/
def pixelX (U : Uni) (px : ℕ) (jit : ℝ × ℝ) : ℝ :=
  ((px : ℝ) / U.width - 0.5) * U.tanFov + jit.1 * U.tanFov / U.width

/-- Jittered vertical screen coordinate of a pixel. -/
def pixelY (U : Uni) (py : ℕ) (jit : ℝ × ℝ) : ℝ :=
  (-((py : ℝ) / U.height) + 0.5) * (U.width / U.height) * U.tanFov +
    jit.2 * U.tanFov * (U.width / U.height) / U.height

/-- World-space ray direction for a pixel:
`normalize(left·x + up·y + front)`. -/
def viewDirOf (U : Uni) (px py : ℕ) (jit : ℝ × ℝ) : Vec3 :=
  wnormalize (pixelX U px jit • cameraLeft U + pixelY U py jit • cameraUpv U + cameraFront U)

/-- Embedding of the kernel's `traceRay`: build the pixel's ray from the
camera basis, set `h2 = |origin × direction|²` once at birth, then run
the integration loop up to `maxIterations`. -/
def traceRay (U : Uni) (diskTex skyTex : ℝ × ℝ → Color4) (px py : ℕ) (jit : ℝ × ℝ) : TState :=
  (traceIter U diskTex skyTex
      (normSq (cross3 U.cameraPosition (viewDirOf U px py jit))))^[U.maxIterations]
    ⟨U.cameraPosition, viewDirOf U px py jit, ⟨0, 0, 0, 0⟩, false⟩

/-- A stopped ray is a fixed point of the loop body. -/
theorem traceIter_stopped (U : Uni) (diskTex skyTex : ℝ × ℝ → Color4) (h2 : ℝ) (s : TState)
    (h : s.stop = true) : traceIter U diskTex skyTex h2 s = s := by
  unfold traceIter
  rw [if_pos h]

/-- Uniforms the frame driver produces for the flat-space scenario of the
specification: `k = 0`, camera at `(0,3,−20)` looking at the origin, a
256×256 image, and the disk, sky and horizon radii that
`updateUniforms` hard-codes regardless of the scene's hitable list
(2.6, 12, 30 and 2), with the driver's default iteration cap 100000. -/
def flatUni (stepSize tanFov : ℝ) (up : Vec3) : Uni :=
  { potentialCoefficient := 0, stepSize := stepSize, width := 256, height := 256,
    diskInnerRadius := 2.6, diskOuterRadius := 12, skyRadius := 30, horizonRadius := 2,
    tanFov := tanFov, cameraPosition := ⟨0, 3, -20⟩, cameraLookAt := ⟨0, 0, 0⟩,
    cameraUp := up, maxIterations := 100000 }

/-- The proposition asserted by claim C4: in the flat-space scenario every
ray misses — the stop flag never becomes true and the traced color stays
the transparent zero color, for every valid step size, any field of view
and up vector, every pixel and every jitter. -/
def flatSceneAllMiss : Prop :=
  ∀ (stepSize tanFov : ℝ) (up : Vec3) (diskTex skyTex : ℝ × ℝ → Color4)
    (px py : ℕ) (jit : ℝ × ℝ),
    1 / 100 ≤ stepSize → stepSize ≤ 1 / 5 → px < 256 → py < 256 →
    (traceRay (flatUni stepSize tanFov up) diskTex skyTex px py jit).stop = false ∧
    (traceRay (flatUni stepSize tanFov up) diskTex skyTex px py jit).col = ⟨0, 0, 0, 0⟩

/-- The flat-scenario camera position. -/
def p0Flat : Vec3 := ⟨0, 3, -20⟩

/-- The central ray direction of the flat scenario: the unit vector from
the camera toward the origin. -/
def dirFlat : Vec3 := ⟨0, -3 / Real.sqrt 409, 20 / Real.sqrt 409⟩

/-- Per-step contraction factor of the central ray with step size 1/5:
`1 − (1/5)/30 = 149/150`. -/
def rhoFlat : ℝ := 149 / 150

/-- Loop state of the central flat-scenario ray after `n` iterations: the
position has contracted radially by `rhoFlat^n`, the direction is
unchanged, no color has been composited and the ray has not stopped. -/
def flatState (n : ℕ) : TState := ⟨rhoFlat ^ n • p0Flat, dirFlat, ⟨0, 0, 0, 0⟩, false⟩

theorem sqrt409_mul_self : Real.sqrt 409 * Real.sqrt 409 = 409 :=
  Real.mul_self_sqrt (by norm_num)

theorem sqrt409_pos : 0 < Real.sqrt 409 := Real.sqrt_pos.mpr (by norm_num)

theorem sqrt409_ne : Real.sqrt 409 ≠ 0 := ne_of_gt sqrt409_pos

theorem normSq_p0Flat : normSq p0Flat = 409 := by
  unfold normSq p0Flat
  norm_num

theorem rhoFlat_pos : (0 : ℝ) < rhoFlat := by unfold rhoFlat; norm_num

theorem rhoFlat_le_one : rhoFlat ≤ (1 : ℝ) := by unfold rhoFlat; norm_num

/-- Crossing bound, outer side: after 690 half-steps the squared radius
is still above the squared horizon radius. -/
theorem flatN1 : (4 : ℝ) < 409 * rhoFlat ^ 690 := by
  unfold rhoFlat
  rw [div_pow, ← mul_div_assoc, lt_div_iff₀ (by positivity)]
  norm_num

/-- Crossing bound, inner side: after 692 half-steps the squared radius
is below the squared horizon radius. -/
theorem flatN2 : (409 : ℝ) * rhoFlat ^ 692 < 4 := by
  unfold rhoFlat
  rw [div_pow, ← mul_div_assoc, div_lt_iff₀ (by positivity)]
  norm_num

/-- Disk-plane clearance: the refined crossing point keeps `|y| ≥ 1/10`. -/
theorem flatN3 : (1 : ℝ) / 10 ≤ 3 * rhoFlat ^ 346 := by
  unfold rhoFlat
  rw [div_pow, ← mul_div_assoc, le_div_iff₀ (by positivity)]
  norm_num

/-- The direction of the central ray is the contracting multiple of the
camera position. -/
theorem dirFlat_eq_smul : dirFlat = (-(1 / Real.sqrt 409)) • p0Flat := by
  unfold dirFlat p0Flat
  ext <;> simp <;> ring

theorem normSq_flat (n : ℕ) : normSq (rhoFlat ^ n • p0Flat) = rhoFlat ^ (2 * n) * 409 := by
  rw [normSq_smul, normSq_p0Flat, ← pow_mul]
  ring_nf

theorem vnorm_flat (n : ℕ) : vnorm (rhoFlat ^ n • p0Flat) = rhoFlat ^ n * Real.sqrt 409 := by
  rw [vnorm, normSq_smul, normSq_p0Flat, Real.sqrt_mul (sq_nonneg _),
    Real.sqrt_sq (pow_nonneg (le_of_lt rhoFlat_pos) n)]

/-- Squared-radius lower bound along the central ray: before iteration
345 the ray is still outside the horizon. -/
theorem flat_outside (m : ℕ) (hm : m ≤ 345) : (4 : ℝ) < rhoFlat ^ (2 * m) * 409 := by
  have hmono : rhoFlat ^ 690 ≤ rhoFlat ^ (2 * m) :=
    pow_le_pow_of_le_one (le_of_lt rhoFlat_pos) rhoFlat_le_one (by omega)
  have h1 := flatN1
  nlinarith

/-- Squared-radius upper bound along the central ray: the radius never
exceeds the starting radius, in particular stays below the sky shell. -/
theorem flat_below_sky (m : ℕ) : rhoFlat ^ (2 * m) * 409 ≤ 409 := by
  have h1 : rhoFlat ^ (2 * m) ≤ 1 :=
    pow_le_one₀ (le_of_lt rhoFlat_pos) rhoFlat_le_one
  nlinarith

/-- Advancing the central flat ray by its adaptive substep contracts the
radial coefficient by one factor of 149/150. -/
theorem flat_advance (n : ℕ) :
    rhoFlat ^ n • p0Flat + (rhoFlat ^ n * Real.sqrt 409 / 30 * (1 / 5)) • dirFlat =
      rhoFlat ^ (n + 1) • p0Flat := by
  have hcoef : rhoFlat ^ n + rhoFlat ^ n * Real.sqrt 409 / 30 * (1 / 5) * (-(1 / Real.sqrt 409))
      = rhoFlat ^ (n + 1) := by
    have hA := sqrt409_ne
    rw [pow_succ]
    unfold rhoFlat
    field_simp
    ring
  rw [dirFlat_eq_smul]
  ext
  · simp [p0Flat]
  · simp only [Vec3.add_y, Vec3.smul_y, p0Flat, Vec3.mk_y]
    linear_combination (3 : ℝ) * hcoef
  · simp only [Vec3.add_z, Vec3.smul_z, p0Flat, Vec3.mk_z]
    linear_combination (-20 : ℝ) * hcoef

/-- The disk-plane check never fires on the central flat ray: both the
previous and the current point lie strictly above the plane. -/
theorem flat_diskPlane (dT : ℝ × ℝ → Color4) (n : ℕ) (phi : ℝ) (c : Color4) :
    diskPlaneStep (flatUni (1 / 5) 1 ⟨0, 1, 0⟩) dT (rhoFlat ^ n • p0Flat)
      (rhoFlat ^ (n + 1) • p0Flat) phi c = c := by
  unfold diskPlaneStep
  have hy : (rhoFlat ^ n • p0Flat).y = rhoFlat ^ n * 3 := by simp [p0Flat]
  have hy1 : (rhoFlat ^ (n + 1) • p0Flat).y = rhoFlat ^ (n + 1) * 3 := by simp [p0Flat]
  have hpow := pow_pos rhoFlat_pos n
  have hpow1 := pow_pos rhoFlat_pos (n + 1)
  have hside : sideOf ((rhoFlat ^ n • p0Flat).y) = -1 := by
    unfold sideOf
    rw [hy, if_pos (by linarith)]
  rw [hside, if_neg]
  rw [hy1]
  intro hge
  nlinarith

/-- One non-terminal iteration of the kernel loop on the central flat
ray: before the horizon crossing the loop just contracts the position. -/
theorem flat_step (dT sT : ℝ × ℝ → Color4) (n : ℕ) (hn : n < 345) :
    traceIter (flatUni (1 / 5) 1 ⟨0, 1, 0⟩) dT sT 0 (flatState n) = flatState (n + 1) := by
  unfold traceIter
  rw [if_neg (by simp [flatState])]
  simp only [flatState,
    show (flatUni (1 / 5) 1 ⟨0, 1, 0⟩).stepSize = 1 / 5 from rfl,
    show (flatUni (1 / 5) 1 ⟨0, 1, 0⟩).potentialCoefficient = 0 from rfl,
    show (flatUni (1 / 5) 1 ⟨0, 1, 0⟩).horizonRadius = 2 from rfl,
    show (flatUni (1 / 5) 1 ⟨0, 1, 0⟩).skyRadius = 30 from rfl]
  rw [vnorm_flat n, applyEquation_zero_coef]
  dsimp only
  rw [flat_advance n, normSq_flat (n + 1), normSq_flat n]
  rw [if_neg]
  · rw [flat_diskPlane dT n, if_neg]
    intro hsky
    have := flat_below_sky (n + 1)
    norm_num at hsky
    linarith
  · rintro ⟨h1, -⟩
    have h2 := flat_outside (n + 1) (by omega)
    norm_num at h1
    linarith

/-- The terminal iteration of the central flat ray: at iteration 345 the
squared radius drops below the squared horizon radius, the bisection
point keeps `|y| ≥ 1/10` so the disk-through-horizon test fails, and the
kernel composites opaque black and stops. -/
theorem flat_step_stop (dT sT : ℝ × ℝ → Color4) :
    traceIter (flatUni (1 / 5) 1 ⟨0, 1, 0⟩) dT sT 0 (flatState 345) =
      ⟨rhoFlat ^ 346 • p0Flat, dirFlat, ⟨0, 0, 0, 1⟩, true⟩ := by
  unfold traceIter
  rw [if_neg (by simp [flatState])]
  simp only [flatState,
    show (flatUni (1 / 5) 1 ⟨0, 1, 0⟩).stepSize = 1 / 5 from rfl,
    show (flatUni (1 / 5) 1 ⟨0, 1, 0⟩).potentialCoefficient = 0 from rfl,
    show (flatUni (1 / 5) 1 ⟨0, 1, 0⟩).horizonRadius = 2 from rfl,
    show (flatUni (1 / 5) 1 ⟨0, 1, 0⟩).skyRadius = 30 from rfl]
  rw [vnorm_flat 345, applyEquation_zero_coef]
  dsimp only
  rw [flat_advance 345, normSq_flat 346, normSq_flat 345]
  rw [if_pos]
  · unfold horizonHitState
    simp only [show (flatUni (1 / 5) 1 ⟨0, 1, 0⟩).horizonRadius = 2 from rfl]
    rw [if_neg]
    · have haddblack : addColor ⟨0, 0, 0, 1⟩ ⟨0, 0, 0, 0⟩ = ⟨0, 0, 0, 1⟩ := by
        simp [addColor]
      rw [haddblack]
    · rintro ⟨habs, -⟩
      have hA := sqrt409_pos
      have hrp := pow_pos rhoFlat_pos 345
      have hsnn : (0 : ℝ) ≤ rhoFlat ^ 345 * Real.sqrt 409 / 30 * (1 / 5) := by
        have h0 : (0 : ℝ) ≤ rhoFlat ^ 345 := le_of_lt hrp
        have h1 := Real.sqrt_nonneg (409 : ℝ)
        positivity
      obtain ⟨-, -, -, hm0, hm1⟩ :=
        bisectIter_inv (rhoFlat ^ 345 • p0Flat) dirFlat 2
          (rhoFlat ^ 345 * Real.sqrt 409 / 30 * (1 / 5)) hsnn 10
      set m := (bisectLoop (rhoFlat ^ 345 • p0Flat) dirFlat 2
        (rhoFlat ^ 345 * Real.sqrt 409 / 30 * (1 / 5))).2.2 with hmdef
      have hcy : (bisectPoint (rhoFlat ^ 345 • p0Flat) dirFlat 2
          (rhoFlat ^ 345 * Real.sqrt 409 / 30 * (1 / 5))).y =
            rhoFlat ^ 345 * 3 + m * (-3 / Real.sqrt 409) := by
        rw [bisectPoint, Vec3.add_y, ← hmdef]
        simp only [Vec3.smul_y]
        rw [show p0Flat.y = 3 from rfl, show dirFlat.y = -3 / Real.sqrt 409 from rfl]
      have hmA : m * (3 / Real.sqrt 409) ≤ 3 * rhoFlat ^ 345 / 150 := by
        have hmul := mul_le_mul_of_nonneg_right hm1
          (le_of_lt (div_pos (by norm_num) hA) : (0 : ℝ) ≤ 3 / Real.sqrt 409)
        calc m * (3 / Real.sqrt 409)
            ≤ rhoFlat ^ 345 * Real.sqrt 409 / 30 * (1 / 5) * (3 / Real.sqrt 409) := hmul
          _ = 3 * rhoFlat ^ 345 / 150 := by
              field_simp
              ring
      have h346 : 3 * rhoFlat ^ 345 / 150 = rhoFlat ^ 345 * 3 - 3 * rhoFlat ^ 346 := by
        rw [pow_succ]
        unfold rhoFlat
        ring
      have hcy_ge : (1 : ℝ) / 10 ≤ (bisectPoint (rhoFlat ^ 345 • p0Flat) dirFlat 2
          (rhoFlat ^ 345 * Real.sqrt 409 / 30 * (1 / 5))).y := by
        rw [hcy]
        have hn3 := flatN3
        have hy : m * (-3 / Real.sqrt 409) = -(m * (3 / Real.sqrt 409)) := by ring
        rw [hy]
        linarith
      have habs2 := le_abs_self ((bisectPoint (rhoFlat ^ 345 • p0Flat) dirFlat 2
        (rhoFlat ^ 345 * Real.sqrt 409 / 30 * (1 / 5))).y)
      rw [show (0.1 : ℝ) = 1 / 10 by norm_num] at habs
      linarith
  · constructor
    · have := flatN2
      norm_num
      linarith
    · have := flatN1
      norm_num
      linarith

/-- The central flat ray reaches `flatState n` after `n` iterations, for
every `n` up to the crossing iteration. -/
theorem flat_iter (dT sT : ℝ × ℝ → Color4) (n : ℕ) (hn : n ≤ 345) :
    (traceIter (flatUni (1 / 5) 1 ⟨0, 1, 0⟩) dT sT 0)^[n] (flatState 0) = flatState n := by
  induction n with
  | zero => rfl
  | succ n ih =>
      rw [Function.iterate_succ_apply', ih (by omega)]
      exact flat_step dT sT n (by omega)

/-- The all-transparent texture used to instantiate the flat scenario;
its values are never consulted by the central ray. -/
def zeroTexture : ℝ × ℝ → Color4 := fun _ => ⟨0, 0, 0, 0⟩

theorem flat_front : cameraFront (flatUni (1 / 5) 1 ⟨0, 1, 0⟩) = dirFlat := by
  unfold cameraFront wnormalize
  have hsub : (flatUni (1 / 5) 1 ⟨0, 1, 0⟩).cameraLookAt -
      (flatUni (1 / 5) 1 ⟨0, 1, 0⟩).cameraPosition = ⟨0, -3, 20⟩ := by
    show (⟨0, 0, 0⟩ : Vec3) - ⟨0, 3, -20⟩ = ⟨0, -3, 20⟩
    ext <;> simp
  rw [hsub]
  have hv : vnorm ⟨0, -3, 20⟩ = Real.sqrt 409 := by
    unfold vnorm
    norm_num [normSq]
  rw [hv]
  unfold dirFlat
  ext <;> simp <;> ring

theorem normSq_dirFlat : normSq dirFlat = 1 := by
  unfold normSq dirFlat
  simp only [Vec3.mk_x, Vec3.mk_y, Vec3.mk_z]
  have hA := sqrt409_ne
  field_simp
  linarith [sqrt409_mul_self]

theorem flat_view : viewDirOf (flatUni (1 / 5) 1 ⟨0, 1, 0⟩) 128 128 (0, 0) = dirFlat := by
  unfold viewDirOf
  have hx : pixelX (flatUni (1 / 5) 1 ⟨0, 1, 0⟩) 128 (0, 0) = 0 := by
    unfold pixelX
    simp only [show (flatUni (1 / 5) 1 ⟨0, 1, 0⟩).width = 256 from rfl,
      show (flatUni (1 / 5) 1 ⟨0, 1, 0⟩).tanFov = 1 from rfl]
    norm_num
  have hy : pixelY (flatUni (1 / 5) 1 ⟨0, 1, 0⟩) 128 (0, 0) = 0 := by
    unfold pixelY
    simp only [show (flatUni (1 / 5) 1 ⟨0, 1, 0⟩).width = 256 from rfl,
      show (flatUni (1 / 5) 1 ⟨0, 1, 0⟩).height = 256 from rfl,
      show (flatUni (1 / 5) 1 ⟨0, 1, 0⟩).tanFov = 1 from rfl]
    norm_num
  rw [hx, hy, flat_front]
  have hz : (0 : ℝ) • cameraLeft (flatUni (1 / 5) 1 ⟨0, 1, 0⟩) +
      (0 : ℝ) • cameraUpv (flatUni (1 / 5) 1 ⟨0, 1, 0⟩) + dirFlat = dirFlat := by
    ext <;> simp
  rw [hz]
  unfold wnormalize
  rw [vnorm, normSq_dirFlat, Real.sqrt_one]
  ext <;> simp

theorem flat_cross_zero :
    cross3 ((flatUni (1 / 5) 1 ⟨0, 1, 0⟩).cameraPosition) dirFlat = ⟨0, 0, 0⟩ := by
  show cross3 ⟨0, 3, -20⟩ dirFlat = ⟨0, 0, 0⟩
  unfold cross3 dirFlat
  ext <;> simp <;> ring

/-- Full run of the kernel loop on the central pixel of the flat
scenario: after the horizon crossing at iteration 345 the ray keeps the
stopped state with opaque black color through the remaining iterations. -/
theorem flat_central :
    traceRay (flatUni (1 / 5) 1 ⟨0, 1, 0⟩) zeroTexture zeroTexture 128 128 (0, 0) =
      ⟨rhoFlat ^ 346 • p0Flat, dirFlat, ⟨0, 0, 0, 1⟩, true⟩ := by
  unfold traceRay
  rw [flat_view, flat_cross_zero]
  have hz : normSq (⟨0, 0, 0⟩ : Vec3) = 0 := by simp [normSq]
  rw [hz]
  have hinit : (⟨(flatUni (1 / 5) 1 ⟨0, 1, 0⟩).cameraPosition, dirFlat,
      ⟨0, 0, 0, 0⟩, false⟩ : TState) = flatState 0 := by
    unfold flatState
    show (⟨⟨0, 3, -20⟩, dirFlat, ⟨0, 0, 0, 0⟩, false⟩ : TState) = _
    rw [pow_zero]
    have h1 : (1 : ℝ) • p0Flat = p0Flat := by ext <;> simp
    rw [h1]
    rfl
  rw [hinit]
  have h346full : (traceIter (flatUni (1 / 5) 1 ⟨0, 1, 0⟩) zeroTexture zeroTexture 0)^[346]
      (flatState 0) = ⟨rhoFlat ^ 346 • p0Flat, dirFlat, ⟨0, 0, 0, 1⟩, true⟩ := by
    have h := Function.iterate_succ_apply'
      (traceIter (flatUni (1 / 5) 1 ⟨0, 1, 0⟩) zeroTexture zeroTexture 0) 345 (flatState 0)
    rw [flat_iter zeroTexture zeroTexture 345 le_rfl] at h
    exact h.trans (flat_step_stop zeroTexture zeroTexture)
  have hfix : traceIter (flatUni (1 / 5) 1 ⟨0, 1, 0⟩) zeroTexture zeroTexture 0
      ⟨rhoFlat ^ 346 • p0Flat, dirFlat, ⟨0, 0, 0, 1⟩, true⟩ =
        ⟨rhoFlat ^ 346 • p0Flat, dirFlat, ⟨0, 0, 0, 1⟩, true⟩ :=
    traceIter_stopped _ _ _ _ _ rfl
  have hadd := Function.iterate_add_apply
    (traceIter (flatUni (1 / 5) 1 ⟨0, 1, 0⟩) zeroTexture zeroTexture 0) 99654 346 (flatState 0)
  have h100000 : (99654 + 346 : ℕ) = 100000 := by norm_num
  rw [h100000] at hadd
  show (traceIter (flatUni (1 / 5) 1 ⟨0, 1, 0⟩) zeroTexture zeroTexture 0)^[(flatUni
    (1 / 5) 1 ⟨0, 1, 0⟩).maxIterations] (flatState 0) = _
  rw [show (flatUni (1 / 5) 1 ⟨0, 1, 0⟩).maxIterations = 100000 from rfl]
  rw [hadd, h346full]
  exact Function.iterate_fixed hfix 99654

/-- Claim C4 counterexample: the kernel's intersection radii are
hard-coded defaults independent of the scene's hitable list, so in the
flat-space scenario the central ray still crosses the horizon: at step
size 1/5 and zero jitter its stop flag becomes true and its color becomes
opaque black, refuting the claim that no ray ever stops and the output
stays entirely zero. -/
theorem c4_counterexample : ¬ flatSceneAllMiss := by
  intro hcl
  have h := hcl (1 / 5) 1 ⟨0, 1, 0⟩ zeroTexture zeroTexture 128 128 (0, 0)
    (by norm_num) (by norm_num) (by norm_num) (by norm_num)
  have hstop := h.1
  rw [flat_central] at hstop
  simp at hstop

/-- Claim C4 (amended): because `updateUniforms` hard-codes the disk, sky
and horizon radii regardless of the hitable list, rays in the flat-space
scenario do terminate: the central ray of the 256×256 frame (step size
1/5, zero jitter) crosses the horizon after 346 substeps, composites
opaque black, and sets its stop flag, so the frame's output is not
entirely zero. -/
theorem c4_flat_scene_ray_stops :
    (traceRay (flatUni (1 / 5) 1 ⟨0, 1, 0⟩) zeroTexture zeroTexture 128 128 (0, 0)).stop =
      true ∧
    (traceRay (flatUni (1 / 5) 1 ⟨0, 1, 0⟩) zeroTexture zeroTexture 128 128 (0, 0)).col =
      ⟨0, 0, 0, 1⟩ := by
  rw [flat_central]
  exact ⟨rfl, rfl⟩
